import Mathlib

/-!
Verification development for the batch-rename tool `norm_name.py`.

The Python source is shallowly embedded below: each Python function is
translated into an executable Lean definition over `String` / `List Char`
(strings are sequences of Unicode code points, as in Python).  Machine
integers do not occur (Python integers are unbounded); numeral values are
`Nat` and the signed argument of `int2cn` is `Int`.

Modelling notes, applying throughout:
* Python's `str.isdigit` / regex `\d` accept every Unicode decimal digit;
  they are modelled by the ASCII digits `0`-`9`, the only decimal digits
  occurring in the inputs considered here.
* Python's `str.lower` / `str.casefold` act on all cased Unicode letters;
  they are modelled by ASCII lowercasing, which agrees on the ASCII + CJK
  character universe of this program (CJK characters are uncased).
* Whitespace (`str.strip`, `str.isspace`, regex `\s`) is modelled by the
  full Unicode whitespace set used by Python.
-/

set_option maxRecDepth 2048

namespace NormName

/-! ## Character-class helpers -/

/-- Unicode whitespace, as recognised by Python's `str.isspace` and regex `\s`. -/
def isPySpace (c : Char) : Bool :=
  let n := c.toNat
  (9 ≤ n && n ≤ 13) || (28 ≤ n && n ≤ 32) || n = 133 || n = 160 ||
    n = 0x1680 || (0x2000 ≤ n && n ≤ 0x200a) || n = 0x2028 || n = 0x2029 ||
    n = 0x202f || n = 0x205f || n = 0x3000

/-- ASCII decimal digit (model of Python's decimal-digit class, see header). -/
def isAsciiDigit (c : Char) : Bool := '0' ≤ c && c ≤ '9'

/-- Python `str.strip()`: remove leading and trailing whitespace. -/
def pyStrip (s : String) : String :=
  ⟨((s.data.dropWhile isPySpace).reverse.dropWhile isPySpace).reverse⟩

/-- Python `s.isdigit()` on our character universe: non-empty and all digits. -/
def pyIsDigit (s : String) : Bool := !s.data.isEmpty && s.data.all isAsciiDigit

/-- Value of a decimal digit string (Python `int(s)` for a digit-only `s`). -/
def digitsToNat (l : List Char) : Nat :=
  l.foldl (fun a c => 10 * a + (c.toNat - 48)) 0

/-- Decimal digit characters of `n`, most significant first.  The first
argument is fuel; with fuel `≥ n` the fallback branch is unreachable.  This
models Python's `str(n)` for `n ≥ 0` (Python's conversion is unbounded;
the fuel only serves structural recursion). -/
def natDigits : Nat → Nat → List Char
  | _, 0 => []
  | 0, _ + 1 => []
  | fuel + 1, n + 1 => natDigits fuel ((n + 1) / 10) ++ [Char.ofNat (48 + (n + 1) % 10)]

/-- Python `str(n)` for a natural number. -/
def pyNatStr (n : Nat) : String :=
  if n = 0 then "0" else ⟨natDigits n n⟩

/-- Python `str(n)` for an integer. -/
def pyIntStr (n : Int) : String :=
  if n < 0 then "-" ++ pyNatStr n.natAbs else pyNatStr n.natAbs

/-! ## Numeral converter (`NUM_MAP`, `UNIT_MAP`, `cn2int`, `int2cn`) -/

/-- Source `NUM_MAP`: digit-valued characters (plain, zero variants,
"两", and the uppercase/financial set). -/
def NUM_MAP (c : Char) : Option Nat :=
  if c = '零' || c = '〇' then some 0
  else if c = '一' || c = '壹' then some 1
  else if c = '二' || c = '两' || c = '贰' || c = '貳' then some 2
  else if c = '三' || c = '叁' then some 3
  else if c = '四' || c = '肆' then some 4
  else if c = '五' || c = '伍' then some 5
  else if c = '六' || c = '陆' || c = '陸' then some 6
  else if c = '七' || c = '柒' then some 7
  else if c = '八' || c = '捌' then some 8
  else if c = '九' || c = '玖' then some 9
  else none

/-- Source `UNIT_MAP`: positional multiplier characters. -/
def UNIT_MAP (c : Char) : Option Nat :=
  if c = '十' || c = '拾' then some 10
  else if c = '百' || c = '佰' then some 100
  else if c = '千' || c = '仟' then some 1000
  else none

/-- The character loop of `cn2int`, carrying `(total, current)` exactly as
the Python `for` loop does; `none` models the early `return None`. -/
def cn2intLoop : List Char → Nat → Nat → Option Nat
  | [], total, current => some (total + current)
  | c :: r, total, current =>
    match NUM_MAP c with
    | some d => cn2intLoop r total d
    | none =>
      match UNIT_MAP c with
      | some u => cn2intLoop r (total + (if current = 0 then 1 else current) * u) 0
      | none => if isPySpace c then cn2intLoop r total current else none

/-- Function `cn2int`: Chinese / financial-Chinese / Arabic numeral text to integer. -/
def cn2int (s : String) : Option Nat :=
  let t := pyStrip s
  if t = "" then none
  else if pyIsDigit t then some (digitsToNat t.data)
  else cn2intLoop t.data 0 0

/-- Source `INT_TO_CN`.  The Python dict is only ever indexed with
keys 0–9 (all accesses are range-guarded); out-of-range keys are mapped to
`""` here, a value no guarded access can observe. -/
def INT_TO_CN (n : Nat) : String :=
  match n with
  | 0 => "零" | 1 => "一" | 2 => "二" | 3 => "三" | 4 => "四"
  | 5 => "五" | 6 => "六" | 7 => "七" | 8 => "八" | 9 => "九"
  | _ => ""

/-- Restriction of `int2cn` to arguments `0 ≤ m < 100`: the recursive call
`int2cn(remainder)` of the Python source always lands in the first three
branches of `int2cn`, which this helper reproduces verbatim (flattening the
recursion keeps the definition structurally recursive). -/
def int2cnSmall (m : Nat) : String :=
  if m = 0 then "零"
  else if m < 10 then INT_TO_CN m
  else
    let tens := m / 10
    let units := m % 10
    let r := if tens = 1 then "十" else INT_TO_CN tens ++ "十"
    if units ≠ 0 then r ++ INT_TO_CN units else r

/-- Function `int2cn`: integer to Chinese numeral text (0–999), decimal string fallback. -/
def int2cn (n : Int) : String :=
  if n = 0 then "零"
  else if 0 < n ∧ n < 10 then INT_TO_CN n.toNat
  else if 10 ≤ n ∧ n < 100 then int2cnSmall n.toNat
  else if 100 ≤ n ∧ n < 1000 then
    let hundreds := n.toNat / 100
    let remainder := n.toNat % 100
    let r := INT_TO_CN hundreds ++ "百"
    if remainder ≠ 0 then
      r ++ (if remainder < 10 then "零" else "") ++ int2cnSmall remainder
    else r
  else pyIntStr n

/-! ## Text sanitizer (`INVALID_CHARS_RE`, `sanitize_component`) -/

/-- Characters of `INVALID_CHARS_RE`, the Windows-illegal set `<>:"/\|?*`. -/
def isInvalidChar (c : Char) : Bool :=
  c = '<' || c = '>' || c = ':' || c = '"' || c = '/' || c = '\\' ||
    c = '|' || c = '?' || c = '*'

/-- Connector / whitespace class `[\s_\-—–]` used by the source's
normalization and edge-stripping regexes. -/
def isConnector (c : Char) : Bool :=
  isPySpace c || c = '_' || c = '-' || c = '—' || c = '–'

/-- Step `INVALID_CHARS_RE.sub('-', text)`: each illegal character becomes `-`. -/
def replaceInvalid (l : List Char) : List Char :=
  l.map (fun c => if isInvalidChar c then '-' else c)

/-- Step `re.sub(r'\s+', ' ', text)`: each maximal whitespace run becomes one
space.  The Boolean flag records whether the previous character was part of
a whitespace run already emitted. -/
def collapseWSAux : Bool → List Char → List Char
  | _, [] => []
  | inRun, c :: r =>
    if isPySpace c then
      if inRun then collapseWSAux true r else ' ' :: collapseWSAux true r
    else c :: collapseWSAux false r

def collapseWS (l : List Char) : List Char := collapseWSAux false l

/-- Step `re.sub(r'^[\s_\-—–]+|[\s_\-—–]+$', '', text)`: remove the maximal
leading and trailing connector/whitespace runs. -/
def stripConnectors (l : List Char) : List Char :=
  ((l.dropWhile isConnector).reverse.dropWhile isConnector).reverse

/-- Step `text.rstrip(' .')`. -/
def rstripSpaceDot (l : List Char) : List Char :=
  (l.reverse.dropWhile (fun c => c = ' ' || c = '.')).reverse

/-- Function `sanitize_component`: illegal chars to `-`, collapse whitespace, strip
connector edges, strip trailing spaces and periods. -/
def sanitize_component (text : String) : String :=
  ⟨rstripSpaceDot (stripConnectors (collapseWS (replaceInvalid text.data)))⟩

/-! ## Group index (`PHONE_GROUPS` and derived maps) -/

/-- Function `normalize_model_key`: lowercase, strip, drop every connector character. -/
def normalize_model_key (s : String) : String :=
  ⟨(pyStrip ⟨s.data.map Char.toLower⟩).data.filter (fun c => !isConnector c)⟩

/-- Source `PHONE_GROUPS`, in its literal order. -/
def PHONE_GROUPS : List (String × List String) :=
  [("1-1", ["小米15", "xiaomi15"]),
   ("1-2", ["一加13", "oneplus13"]),
   ("1-3", ["oppo find x8", "oppofindx8pro", "findx8pro"]),
   ("1-4", ["vivo iqoo13", "vivoiqoo13", "iqoo13"]),
   ("1-5", ["三星s24", "samsungs24"]),
   ("2-1", ["vivo x200 pro", "vivox200pro", "x200pro"]),
   ("2-2", ["苹果15", "iphone15"]),
   ("2-3", ["荣耀magic7", "honormagic7", "magic7"]),
   ("2-4", ["红米k80pro", "redmik80pro", "k80pro"]),
   ("2-5", ["华为p40proplus", "huaweip40proplus", "p40proplus"]),
   ("3-1", ["华为mate60", "huaweimate60", "mate60"]),
   ("3-2", ["一加ace3", "oneplusace3", "ace3"]),
   ("3-3", ["小米14", "xiaomi14"]),
   ("3-4", ["荣耀magic6", "honormagic6", "magic6"]),
   ("3-5", ["荣耀magicvs3", "honormagicvs3", "magicvs3"]),
   ("4-1", ["华为p60", "huaweip60", "p60"]),
   ("4-2", ["华为nova13", "huaweinova13", "nova13"]),
   ("4-3", ["华为mate50pro", "huaweimate50pro", "mate50pro"]),
   ("4-4", ["华为nova14pro", "huaweinova14pro", "nova14pro"]),
   ("4-5", ["华为nova14ultra", "huaweinova14ultra", "nova14ultra"]),
   ("5-1", ["华为p70pro", "huaweip70pro", "p70pro"]),
   ("5-2", ["华为matex5", "huaweimatex5", "matex5"]),
   ("5-3", ["vivo s19 pro", "vivos19pro", "s19pro"]),
   ("5-4", ["vivo x100 pro", "vivox100pro", "x100pro"]),
   ("5-5", ["oppo find x7", "oppofindx7", "findx7"]),
   ("5-6", ["oppo find n3", "oppofindn3", "findn3"])]

/-- Insertion into an association list with Python-dict semantics: an
existing key is updated in place (keeping its position in iteration order),
a new key is appended. -/
def dictInsert (k : String) (v : String × String) :
    List (String × String × String) → List (String × String × String)
  | [] => [(k, v)]
  | (k', v') :: r => if k' = k then (k, v) :: r else (k', v') :: dictInsert k v r

/-- Map `NORMALIZED_MODEL_TO_GROUP` as built by `init_group_index`: entries
`(normalizedAlias, groupId, originalAlias)` in dict iteration order. -/
def NORMALIZED_MODEL_TO_GROUP : List (String × String × String) :=
  PHONE_GROUPS.foldl
    (fun acc ga =>
      ga.2.foldl
        (fun acc alias0 =>
          let a := pyStrip alias0
          if a = "" then acc
          else dictInsert (normalize_model_key a) (ga.1, a) acc)
        acc)
    []

/-- Lookup `GROUP_TO_CANONICAL_MODEL.get(g)`: the stripped first alias of group `g`. -/
def GROUP_TO_CANONICAL_MODEL (g : String) : Option String :=
  (PHONE_GROUPS.find? (fun e => e.1 = g)).bind
    (fun e => match e.2 with | [] => none | a :: _ => some (pyStrip a))

/-- Python's `a in b` substring test on code-point sequences. -/
def isSubstr (a b : List Char) : Bool := b.tails.any (fun t => a.isPrefixOf t)

/-- The containment test of the fuzzy scan: `alias_key in key or key in alias_key`. -/
def fuzzyHit (key : String) (e : String × String × String) : Bool :=
  isSubstr e.1.data key.data || isSubstr key.data e.1.data

/-- The `for` loop of `find_group_for_model`: running best
`(group, alias, alias_key_length)`, replaced only on a strictly longer hit. -/
def scanBest (key : String) :
    List (String × String × String) → Option (String × String × Nat) →
      Option (String × String × Nat)
  | [], best => best
  | e :: r, best =>
    if fuzzyHit key e then
      match best with
      | none => scanBest key r (some (e.2.1, e.2.2, e.1.length))
      | some b =>
        if e.1.length > b.2.2 then scanBest key r (some (e.2.1, e.2.2, e.1.length))
        else scanBest key r (some b)
    else scanBest key r best

/-- Function `find_group_for_model`: exact normalized lookup, then fuzzy containment
scan keeping the longest normalized alias. -/
def find_group_for_model (model_text : String) : Option String × Option String :=
  let key := normalize_model_key model_text
  match NORMALIZED_MODEL_TO_GROUP.find? (fun e => e.1 = key) with
  | some e => (some e.2.1, some e.2.2)
  | none =>
    match scanBest key NORMALIZED_MODEL_TO_GROUP none with
    | some b => (some b.1, some b.2.1)
    | none => (none, none)

/-! ## Pattern extractor (`PATTERN`)

The source's anchored regular expression

  `^(?:.*?(?:[-—]{2,}|—|---)\s*)? (?P<model>.+?) \s*第\s*`
  `(?P<num>(\d+|[零〇两一二三四五六七八九壹贰貳叁肆伍陆陸柒捌玖十拾百佰千仟]+))`
  `\s*(?:个)?\s*点(?:位)? (?:\s*.*)?$`

is compiled by hand into an explicit backtracking matcher.  Each quantifier
enumerates its candidate widths in Python's preference order (lazy `*?`/`+?`
ascending, greedy `*`/`+`/`{2,}` descending, optional groups present first,
alternatives left to right); nested `findSome?` realises depth-first
backtracking, so the first assignment found is exactly the one the Python
engine reports.  `.` excludes `'\n'`; `$` accepts the end of input or a
single trailing `'\n'`; `^` anchors the whole pattern at position 0, making
`re.search` a single anchored attempt. -/

/-- Regex `.`: any character except a newline. -/
def isDotChar (c : Char) : Bool := c ≠ '\n'

/-- Character class `[-—]` of the noise-separator run. -/
def isDashChar (c : Char) : Bool := c = '-' || c = '—'

/-- Character class of the Chinese-numeral alternative of the `num` group. -/
def isCnNumChar (c : Char) : Bool :=
  (NUM_MAP c).isSome || (UNIT_MAP c).isSome

/-- All splits `(taken, rest)` of `s` whose taken prefix has length between
`mn` and the maximal run of `p`, in ascending (lazy) order. -/
def lazySplits (p : Char → Bool) (mn : Nat) (s : List Char) :
    List (List Char × List Char) :=
  let m := (s.takeWhile p).length
  if mn ≤ m then
    (List.range' mn (m - mn + 1)).map (fun k => (s.take k, s.drop k))
  else []

/-- The same splits in descending (greedy) order. -/
def greedySplits (p : Char → Bool) (mn : Nat) (s : List Char) :
    List (List Char × List Char) :=
  (lazySplits p mn s).reverse

/-- Regex `$` (no MULTILINE): end of input, or just before a final newline. -/
def atDollar (s : List Char) : Bool := s.isEmpty || s = ['\n']

/-- Tail pattern `(?:\s*.*)?$`. -/
def matchEnd (s : List Char) : Bool :=
  ((greedySplits isPySpace 0 s).any fun sp =>
    (greedySplits isDotChar 0 sp.2).any fun dp => atDollar dp.2) ||
  atDollar s

/-- An optional literal character `(?:c)?`: present first, then absent. -/
def tryOptChar (c : Char) (s : List Char) (k : List Char → Bool) : Bool :=
  (match s with
   | c' :: r => if c' = c then k r else false
   | [] => false) ||
  k s

/-- Suffix pattern `\s*(?:个)?\s*点(?:位)?(?:\s*.*)?$` after the numeral. -/
def matchAfterNum (s : List Char) : Bool :=
  (greedySplits isPySpace 0 s).any fun sp =>
    tryOptChar '个' sp.2 fun r2 =>
      (greedySplits isPySpace 0 r2).any fun sp2 =>
        match sp2.2 with
        | '点' :: r4 => tryOptChar '位' r4 matchEnd
        | _ => false

/-- The `num` group `(\d+|[...]+)` followed by the suffix pattern: the
decimal alternative is exhausted (greedily) before the Chinese one. -/
def matchNumSuffix (s : List Char) : Option (List Char) :=
  ((greedySplits isAsciiDigit 1 s).findSome? fun np =>
    if matchAfterNum np.2 then some np.1 else none) <|>
  ((greedySplits isCnNumChar 1 s).findSome? fun np =>
    if matchAfterNum np.2 then some np.1 else none)

/-- Piece `(?P<model>.+?)\s*第\s*` followed by the numeral and suffix; returns the
captured `(model, num)` of the first successful assignment. -/
def matchFromModel (s : List Char) : Option (List Char × List Char) :=
  (lazySplits isDotChar 1 s).findSome? fun mp =>
    (greedySplits isPySpace 0 mp.2).findSome? fun sp =>
      match sp.2 with
      | '第' :: r3 =>
        (greedySplits isPySpace 0 r3).findSome? fun sp2 =>
          (matchNumSuffix sp2.2).map (fun num => (mp.1, num))
      | _ => none

/-- The separator alternation `(?:[-—]{2,}|—|---)`: the rests after each
alternative, in the order backtracking visits them. -/
def dashAltRests (s : List Char) : List (List Char) :=
  ((greedySplits isDashChar 2 s).map (·.2)) ++
  (match s with | '—' :: r => [r] | _ => []) ++
  (match s with | '-' :: '-' :: '-' :: r => [r] | _ => [])

/-- The present branch of the optional noise group `(?:.*?(?:[-—]{2,}|—|---)\s*)?`. -/
def matchWithNoise (s : List Char) : Option (List Char × List Char) :=
  (lazySplits isDotChar 0 s).findSome? fun np =>
    (dashAltRests np.2).findSome? fun r2 =>
      (greedySplits isPySpace 0 r2).findSome? fun sp =>
        matchFromModel sp.2

/-- Entry point `PATTERN.search(basename)`: the anchored pattern, noise branch first. -/
def patternExtract (s : List Char) : Option (List Char × List Char) :=
  matchWithNoise s <|> matchFromModel s

/-! ## Name builder (`build_new_name`) -/

/-- Function `build_new_name`: extract, sanitize, convert the numeral, resolve the
group, and compose `[groupId_]finalModel_第<numeral>个点`. -/
def build_new_name (basename : String) : Option String :=
  match patternExtract basename.data with
  | none => none
  | some mn =>
    let model := sanitize_component (pyStrip ⟨mn.1⟩)
    if model = "" then none
    else
      match cn2int (pyStrip ⟨mn.2⟩) with
      | none => none
      | some n =>
        let num_cn := int2cn (n : Int)
        match (find_group_for_model model).1 with
        | none => some (model ++ "_第" ++ num_cn ++ "个点")
        | some g =>
          let final_model :=
            match GROUP_TO_CANONICAL_MODEL g with
            | none => model
            | some canonical =>
              let cleaned := sanitize_component canonical
              if cleaned = "" then model else cleaned
          some (g ++ "_" ++ final_model ++ "_第" ++ num_cn ++ "个点")

/-! ## Specification-side definitions

These definitions follow the wording of the design specification (not the
source); the theorems below compare the embedded source functions against
them. -/

/-- Modelled from the spec: the 10–99 rendering rule of `intToNumeral` —
tens glyph + "十" (omitting a leading "一"), then the units glyph if
nonzero. -/
def tensRender (m : Nat) : String :=
  (if m / 10 = 1 then "十" else INT_TO_CN (m / 10) ++ "十") ++
    (if m % 10 = 0 then "" else INT_TO_CN (m % 10))

/-- Modelled from the spec: `intToNumeral` as described in §4.1 — 0 is
"零", 1–9 a single glyph, 10–99 by the tens rule, 100–999 hundreds glyph +
"百" with a "零" filler exactly when the remainder is 1–9, and a plain
decimal string for `n < 0` or `n ≥ 1000`. -/
def int2cnSpec (n : Int) : String :=
  if n < 0 ∨ 1000 ≤ n then pyIntStr n
  else if n = 0 then "零"
  else if n < 10 then INT_TO_CN n.toNat
  else if n < 100 then tensRender n.toNat
  else
    INT_TO_CN (n.toNat / 100) ++ "百" ++
      (if n.toNat % 100 = 0 then ""
       else if n.toNat % 100 < 10 then "零" ++ INT_TO_CN (n.toNat % 100)
       else tensRender (n.toNat % 100))

/-- Modelled from the spec: one step of the left-to-right processing rule
of §4.1 — a DIGIT character replaces the pending digit, a UNIT character
multiplies (an elided pending digit counting as 1), adds and resets, and
whitespace is skipped; the state is `(running total, pending digit)` and
`none` records an earlier no-match. -/
def cnStep (st : Option (Nat × Nat)) (c : Char) : Option (Nat × Nat) :=
  match st with
  | none => none
  | some tp =>
    match NUM_MAP c with
    | some d => some (tp.1, d)
    | none =>
      match UNIT_MAP c with
      | some u => some (tp.1 + (if tp.2 = 0 then 1 else tp.2) * u, 0)
      | none => if isPySpace c then some tp else none

/-- Modelled from the spec: the full left-to-right evaluation, adding the
leftover pending digit at the end of the string. -/
def cnEval (s : String) : Option Nat :=
  (s.data.foldl cnStep (some (0, 0))).map (fun tp => tp.1 + tp.2)

/-- Modelled from the spec: the maximal normalized-alias length among a
list of entries. -/
def maxAliasLen (l : List (String × String × String)) : Nat :=
  l.foldr (fun e m => max e.1.length m) 0

/-- Modelled from the spec §4.3: exact normalized match first, returned
immediately; otherwise, among all entries passing bidirectional substring
containment, the first one (in iteration order) whose normalized alias
attains the maximal length; `(none, none)` when no entry passes. -/
def specResolve (model_text : String) : Option String × Option String :=
  let key := normalize_model_key model_text
  match NORMALIZED_MODEL_TO_GROUP.find? (fun e => e.1 = key) with
  | some e => (some e.2.1, some e.2.2)
  | none =>
    let cands := NORMALIZED_MODEL_TO_GROUP.filter (fuzzyHit key)
    match cands.find? (fun e => e.1.length == maxAliasLen cands) with
    | some e => (some e.2.1, some e.2.2)
    | none => (none, none)

/-- Modelled from the spec §4.5 (steps 5–7): compose the final stem as
(groupId + "_" if a group was found else "") + finalModel + "_第" +
canonical numeral text + "个点", where finalModel is the matched group's
re-sanitized canonical model if a group was found, else the sanitized
extracted model. -/
def composeFinal (model : String) (n : Nat) : String :=
  match (find_group_for_model model).1 with
  | some gid =>
    gid ++ "_" ++ ((GROUP_TO_CANONICAL_MODEL gid).map sanitize_component).getD model ++
      "_第" ++ int2cn (n : Int) ++ "个点"
  | none => model ++ "_第" ++ int2cn (n : Int) ++ "个点"

/-! ## Claim C4: collision avoidance of the rename plan

The planning functions touch the filesystem only through `target.exists()`
and the directory iteration, so the filesystem is modelled as the list
`fs` of file names in a single directory (the non-recursive case):
`exists` is membership in `fs`, names keep their extensions. -/

/-- Helper of `splitName`: index of the last occurrence of the character
(`str.rfind`). -/
def rfindDotAux : List Char → Nat → Option Nat → Option Nat
  | [], _, acc => acc
  | x :: r, i, acc => rfindDotAux r (i + 1) (if x = '.' then some i else acc)

/-- Model of pathlib's `stem`/`suffix` split of a file name: the suffix
starts at the last dot, provided that dot is neither the first nor the
last character; otherwise the suffix is empty. -/
def splitName (nm : String) : String × String :=
  match rfindDotAux nm.data 0 none with
  | some i =>
    if 0 < i ∧ i < nm.data.length - 1 then (⟨nm.data.take i⟩, ⟨nm.data.drop i⟩)
    else (nm, "")
  | none => (nm, "")

/-- Python `str.casefold`, modelled by ASCII lowercasing (see header). -/
def caseFold (s : String) : String := ⟨s.data.map Char.toLower⟩

/-- Candidate name carrying the `(i)` counter of `ensure_unique`. -/
def candName (stem sfx : String) (i : Nat) : String :=
  stem ++ " (" ++ pyNatStr i ++ ")" ++ sfx

/-- The `while True` loop of `ensure_unique`.  The Python loop is
unbounded; fuel makes it structural here, and `ensureUniqueAux_not_mem`
plus `exists_fresh_cand` below show that fuel `fs.length + 1` always
reaches a name outside `fs`, so the fuel-exhausted fallback is
unreachable. -/
def ensureUniqueAux (fs : List String) (stem sfx : String) : Nat → Nat → String
  | 0, i => candName stem sfx i
  | fuel + 1, i =>
    if candName stem sfx i ∈ fs then ensureUniqueAux fs stem sfx fuel (i + 1)
    else candName stem sfx i

/-- Function `ensure_unique` over the flat-directory model. -/
def ensure_unique (fs : List String) (target : String) : String :=
  if target ∈ fs then
    ensureUniqueAux fs (splitName target).1 (splitName target).2 (fs.length + 1) 2
  else target

/-- Function `plan_changes` over the flat-directory model: `fs` is both
the list of files iterated (in iteration order) and the set of existing
names consulted by `ensure_unique`. -/
def plan_changes (fs : List String) : List (String × String) :=
  fs.filterMap fun p =>
    match build_new_name (splitName p).1 with
    | none => none
    | some new_base =>
      if new_base = "" then none
      else if new_base = (splitName p).1 then none
      else
        let new_path := ensure_unique fs (new_base ++ (splitName p).2)
        if caseFold new_path = caseFold p then none
        else if new_path ≠ p then some (p, new_path) else none

/-- Directory with two files that normalize to the same new name. -/
def demoFs : List String := ["小米15第三个点.jpg", "小米15第3个点.jpg"]

/-- Dispatcher splitting a bounded check over 0 ≤ n < 1000 into ten blocks
of one hundred, keeping each `decide` below shallow. -/
theorem forall_lt_1000 {P : Nat → Prop}
    (h0 : ∀ m ∈ List.range' 0 100, P m) (h1 : ∀ m ∈ List.range' 100 100, P m)
    (h2 : ∀ m ∈ List.range' 200 100, P m) (h3 : ∀ m ∈ List.range' 300 100, P m)
    (h4 : ∀ m ∈ List.range' 400 100, P m) (h5 : ∀ m ∈ List.range' 500 100, P m)
    (h6 : ∀ m ∈ List.range' 600 100, P m) (h7 : ∀ m ∈ List.range' 700 100, P m)
    (h8 : ∀ m ∈ List.range' 800 100, P m) (h9 : ∀ m ∈ List.range' 900 100, P m)
    (n : Nat) (hn : n < 1000) : P n := by
  rcases Nat.lt_or_ge n 100 with h | h
  · exact h0 n (by rw [List.mem_range'_1]; omega)
  rcases Nat.lt_or_ge n 200 with h' | h'
  · exact h1 n (by rw [List.mem_range'_1]; omega)
  rcases Nat.lt_or_ge n 300 with h'' | h''
  · exact h2 n (by rw [List.mem_range'_1]; omega)
  rcases Nat.lt_or_ge n 400 with h3' | h3'
  · exact h3 n (by rw [List.mem_range'_1]; omega)
  rcases Nat.lt_or_ge n 500 with h4' | h4'
  · exact h4 n (by rw [List.mem_range'_1]; omega)
  rcases Nat.lt_or_ge n 600 with h5' | h5'
  · exact h5 n (by rw [List.mem_range'_1]; omega)
  rcases Nat.lt_or_ge n 700 with h6' | h6'
  · exact h6 n (by rw [List.mem_range'_1]; omega)
  rcases Nat.lt_or_ge n 800 with h7' | h7'
  · exact h7 n (by rw [List.mem_range'_1]; omega)
  rcases Nat.lt_or_ge n 900 with h8' | h8'
  · exact h8 n (by rw [List.mem_range'_1]; omega)
  exact h9 n (by rw [List.mem_range'_1]; omega)

/-! ## Claim C2: numeral round trip -/

/-- Claim C2: for every integer 0 ≤ n < 1000, converting n to Chinese
numeral text with `int2cn` and parsing it back with `cn2int` yields n. -/
theorem C2_numeral_roundtrip (n : Nat) (h : n < 1000) :
    cn2int (int2cn (n : Int)) = some n :=
  @forall_lt_1000 (fun m => cn2int (int2cn (m : Int)) = some m)
    (by decide) (by decide) (by decide) (by decide) (by decide)
    (by decide) (by decide) (by decide) (by decide) (by decide) n h

/-- Witness for C2 at n = 12. -/
theorem C2_numeral_roundtrip_witness :
    cn2int (int2cn ((12 : Nat) : Int)) = some 12 :=
  C2_numeral_roundtrip 12 (by decide)

/-! ## Claim C7: rendering rules of `int2cn` -/

/-- Claim C7: `int2cn` implements exactly the range-by-range rendering
rules described by the spec (`int2cnSpec`), including the plain decimal
fallback for `n ≥ 1000` and `n < 0`; in particular `int2cn 0 = "零"`,
`int2cn 12 = "十二"`, `int2cn 105 = "一百零五"`. -/
theorem C7_int2cn_rules :
    (∀ n : Int, int2cn n = int2cnSpec n) ∧
      int2cn 0 = "零" ∧ int2cn 12 = "十二" ∧ int2cn 105 = "一百零五" := by
  refine ⟨?_, by decide, by decide, by decide⟩
  intro n
  rcases lt_or_le n 0 with hn | hn
  · have e1 : int2cn n = pyIntStr n := by
      unfold int2cn
      rw [if_neg (by omega : ¬ n = 0), if_neg (by omega : ¬ (0 < n ∧ n < 10)),
        if_neg (by omega : ¬ (10 ≤ n ∧ n < 100)),
        if_neg (by omega : ¬ (100 ≤ n ∧ n < 1000))]
    have e2 : int2cnSpec n = pyIntStr n := by
      unfold int2cnSpec
      rw [if_pos (Or.inl hn)]
    rw [e1, e2]
  · rcases lt_or_le n 1000 with hlt | hge
    · have H : ∀ m : Nat, m < 1000 → int2cn (m : Int) = int2cnSpec (m : Int) :=
        @forall_lt_1000 (fun m => int2cn (m : Int) = int2cnSpec (m : Int))
          (by decide) (by decide) (by decide) (by decide) (by decide)
          (by decide) (by decide) (by decide) (by decide) (by decide)
      have hn' : n = ((n.toNat : Nat) : Int) := (Int.toNat_of_nonneg hn).symm
      rw [hn']
      exact H n.toNat (by omega)
    · have e1 : int2cn n = pyIntStr n := by
        unfold int2cn
        rw [if_neg (by omega : ¬ n = 0), if_neg (by omega : ¬ (0 < n ∧ n < 10)),
          if_neg (by omega : ¬ (10 ≤ n ∧ n < 100)),
          if_neg (by omega : ¬ (100 ≤ n ∧ n < 1000))]
      have e2 : int2cnSpec n = pyIntStr n := by
        unfold int2cnSpec
        rw [if_pos (Or.inr hge)]
      rw [e1, e2]

/-! ## Claim C5: the left-to-right evaluation rule of `cn2int` -/

theorem foldl_cnStep_none (l : List Char) : l.foldl cnStep none = none := by
  induction l with
  | nil => rfl
  | cons c r ih => simpa [cnStep] using ih

theorem cn2intLoop_eq_foldl :
    ∀ (l : List Char) (t c : Nat),
      cn2intLoop l t c = (l.foldl cnStep (some (t, c))).map (fun tp => tp.1 + tp.2) := by
  intro l
  induction l with
  | nil => intro t c; rfl
  | cons ch r ih =>
    intro t c
    unfold cn2intLoop
    rcases hN : NUM_MAP ch with _ | d
    · rcases hU : UNIT_MAP ch with _ | u
      · by_cases hs : isPySpace ch
        · simp [List.foldl_cons, cnStep, hN, hU, hs, ih]
        · simp [List.foldl_cons, cnStep, hN, hU, hs, foldl_cnStep_none]
      · simp [List.foldl_cons, cnStep, hN, hU, ih]
    · simp [List.foldl_cons, cnStep, hN, ih]

/-- Claim C5: on every input that is not a pure decimal-digit string,
`cn2int` agrees with the spec's left-to-right evaluation (`cnEval` on the
trimmed input); in particular `cn2int "十二" = 12`, `cn2int "二十" = 20`,
`cn2int "一百零五" = 105` and `cn2int "3" = 3`. -/
theorem C5_cn2int_evaluation_rule :
    (∀ s : String, pyStrip s ≠ "" → pyIsDigit (pyStrip s) = false →
        cn2int s = cnEval (pyStrip s)) ∧
      cn2int "十二" = some 12 ∧ cn2int "二十" = some 20 ∧
      cn2int "一百零五" = some 105 ∧ cn2int "3" = some 3 := by
  refine ⟨?_, by decide, by decide, by decide, by decide⟩
  intro s h1 h2
  unfold cn2int
  rw [if_neg h1, if_neg (by simp [h2] : ¬ pyIsDigit (pyStrip s) = true)]
  exact cn2intLoop_eq_foldl (pyStrip s).data 0 0

/-- Witness for C5 at the non-digit input "十二". -/
theorem C5_cn2int_evaluation_rule_witness :
    cn2int "十二" = cnEval (pyStrip "十二") :=
  C5_cn2int_evaluation_rule.1 "十二" (by decide) (by decide)

/-! ## Claim C6: exact no-match characterization of `cn2int` -/

theorem cn2intLoop_eq_none_iff :
    ∀ (l : List Char) (t c : Nat),
      (cn2intLoop l t c = none ↔
        ∃ ch ∈ l, isPySpace ch = false ∧ NUM_MAP ch = none ∧ UNIT_MAP ch = none) := by
  intro l
  induction l with
  | nil => intro t c; simp [cn2intLoop]
  | cons ch r ih =>
    intro t c
    unfold cn2intLoop
    rcases hN : NUM_MAP ch with _ | d
    · rcases hU : UNIT_MAP ch with _ | u
      · by_cases hs : isPySpace ch
        · simp [hs, hN, hU, ih]
        · simp [hs, hN, hU]
      · simp [hN, hU, ih]
    · simp [hN, ih]

/-- Claim C6: `cn2int` returns no-match exactly when the trimmed input is
empty, or when it is not a pure decimal-digit string and some
non-whitespace character of it lies outside both the DIGIT (`NUM_MAP`) and
UNIT (`UNIT_MAP`) classes; one such character aborts the whole conversion. -/
theorem C6_cn2int_none_iff (s : String) :
    cn2int s = none ↔
      (pyStrip s = "" ∨
        (pyIsDigit (pyStrip s) = false ∧
          ∃ ch ∈ (pyStrip s).data,
            isPySpace ch = false ∧ NUM_MAP ch = none ∧ UNIT_MAP ch = none)) := by
  unfold cn2int
  by_cases h0 : pyStrip s = ""
  · simp [h0]
  · rw [if_neg h0]
    by_cases hd : pyIsDigit (pyStrip s)
    · simp [hd, h0]
    · rw [if_neg hd]
      simp only [Bool.not_eq_true] at hd
      simp [h0, hd, cn2intLoop_eq_none_iff]

/-! ## Claims C9 and C10: normalization-insensitivity of the group lookup -/

theorem find_group_key_congr (s t : String)
    (h : normalize_model_key s = normalize_model_key t) :
    find_group_for_model s = find_group_for_model t := by
  unfold find_group_for_model
  rw [h]

/-- Claim C9: `find_group_for_model` is case- and separator-insensitive —
any two model texts with equal normalizations resolve identically; in
particular "oppofindx8pro" and "OPPO Find-X8 Pro" normalize identically
and both resolve to group "1-3". -/
theorem C9_resolve_normalization_insensitive :
    (∀ s t : String, normalize_model_key s = normalize_model_key t →
        find_group_for_model s = find_group_for_model t) ∧
      normalize_model_key "oppofindx8pro" = normalize_model_key "OPPO Find-X8 Pro" ∧
      find_group_for_model "OPPO Find-X8 Pro" = (some "1-3", some "oppofindx8pro") :=
  ⟨find_group_key_congr, by decide, by decide⟩

/-- Witness for C9 on the pair from the spec. -/
theorem C9_resolve_normalization_insensitive_witness :
    find_group_for_model "oppofindx8pro" = find_group_for_model "OPPO Find-X8 Pro" :=
  C9_resolve_normalization_insensitive.1 "oppofindx8pro" "OPPO Find-X8 Pro" (by decide)

/-- Claim C10: an input normalizing to the empty string does not yield
`(none, none)` — the empty key passes the containment test against every
entry, so the scan returns the group of the longest normalized alias of
the table, `"huaweinova14ultra"` of group `"4-5"`. -/
theorem C10_empty_key_matches_longest_alias (s : String)
    (h : normalize_model_key s = "") :
    find_group_for_model s = (some "4-5", some "huaweinova14ultra") ∧
      find_group_for_model s ≠ (none, none) := by
  have h' : normalize_model_key s = normalize_model_key "" := by rw [h]; rfl
  rw [find_group_key_congr s "" h']
  exact ⟨by decide, by decide⟩

/-- Witness for C10 at the all-connector input "---". -/
theorem C10_empty_key_matches_longest_alias_witness :
    find_group_for_model "---" = (some "4-5", some "huaweinova14ultra") ∧
      find_group_for_model "---" ≠ (none, none) :=
  C10_empty_key_matches_longest_alias "---" (by decide)

/-! ## Claim C8: the sanitizer -/

theorem mem_replaceInvalid {c : Char} {l : List Char}
    (h : c ∈ replaceInvalid l) : isInvalidChar c = false := by
  unfold replaceInvalid at h
  rcases List.mem_map.mp h with ⟨a, -, rfl⟩
  by_cases ha : isInvalidChar a = true
  · rw [if_pos ha]; decide
  · rw [if_neg ha]; simpa using ha

theorem mem_collapseWSAux :
    ∀ (b : Bool) (l : List Char) (c : Char),
      c ∈ collapseWSAux b l → c = ' ' ∨ c ∈ l := by
  intro b l
  induction l generalizing b with
  | nil => intro c hc; simp [collapseWSAux] at hc
  | cons ch r ih =>
    intro c hc
    unfold collapseWSAux at hc
    by_cases hs : isPySpace ch
    · rw [if_pos hs] at hc
      by_cases hb : b
      · subst hb
        rcases ih true c hc with h | h
        · exact Or.inl h
        · exact Or.inr (List.mem_cons_of_mem _ h)
      · simp only [Bool.not_eq_true] at hb
        subst hb
        rcases List.mem_cons.mp hc with h | h
        · exact Or.inl h
        · rcases ih true c h with h' | h'
          · exact Or.inl h'
          · exact Or.inr (List.mem_cons_of_mem _ h')
    · rw [if_neg hs] at hc
      rcases List.mem_cons.mp hc with h | h
      · exact Or.inr (h ▸ List.mem_cons_self _ _)
      · rcases ih false c h with h' | h'
        · exact Or.inl h'
        · exact Or.inr (List.mem_cons_of_mem _ h')

theorem mem_of_mem_dropWhile {p : Char → Bool} {l : List Char} {c : Char}
    (h : c ∈ l.dropWhile p) : c ∈ l :=
  (List.dropWhile_sublist p).subset h

/-- Claim C8: `sanitize_component` is the four-stage pipeline of the spec
(illegal characters to hyphens, whitespace runs collapsed, connector edges
stripped, trailing spaces and periods stripped); it is total, no illegal
character survives in its output, empty input yields empty output, and
`sanitize_component "bad<name>/x" = "bad-name--x"`. -/
theorem C8_sanitize_pipeline :
    (∀ t : String, sanitize_component t =
        ⟨rstripSpaceDot (stripConnectors (collapseWS (replaceInvalid t.data)))⟩) ∧
      (∀ (t : String) (c : Char),
        c ∈ (sanitize_component t).data → isInvalidChar c = false) ∧
      sanitize_component "" = "" ∧
      sanitize_component "bad<name>/x" = "bad-name--x" := by
  refine ⟨fun t => rfl, ?_, by decide, by decide⟩
  intro t c hc
  have hc' : c ∈ ((stripConnectors (collapseWS (replaceInvalid t.data))).reverse.dropWhile
      (fun c => c = ' ' || c = '.')).reverse := hc
  have h1 : c ∈ stripConnectors (collapseWS (replaceInvalid t.data)) :=
    (List.mem_reverse).mp (mem_of_mem_dropWhile ((List.mem_reverse).mp hc'))
  have h1' : c ∈ (((collapseWS (replaceInvalid t.data)).dropWhile
      isConnector).reverse.dropWhile isConnector).reverse := h1
  have h2 : c ∈ collapseWS (replaceInvalid t.data) :=
    mem_of_mem_dropWhile
      ((List.mem_reverse).mp (mem_of_mem_dropWhile ((List.mem_reverse).mp h1')))
  rcases mem_collapseWSAux false _ c h2 with h | h
  · rw [h]; decide
  · exact mem_replaceInvalid h

/-- Witness for C8 at input "bad<name>/x" and its first output character. -/
theorem C8_sanitize_pipeline_witness :
    isInvalidChar 'b' = false :=
  C8_sanitize_pipeline.2.1 "bad<name>/x" 'b' (by decide)

/-! ## Claim C3: the resolution algorithm of `find_group_for_model` -/

theorem maxAliasLen_cons (e : String × String × String)
    (l : List (String × String × String)) :
    maxAliasLen (e :: l) = max e.1.length (maxAliasLen l) := rfl

theorem scanBest_some_eq (key : String) :
    ∀ (l : List (String × String × String)) (b : String × String × Nat),
      scanBest key l (some b) =
        if maxAliasLen (l.filter (fuzzyHit key)) > b.2.2 then
          ((l.filter (fuzzyHit key)).find?
              (fun e => e.1.length == maxAliasLen (l.filter (fuzzyHit key)))).map
            (fun e => (e.2.1, e.2.2, e.1.length))
        else some b := by
  intro l
  induction l with
  | nil =>
    intro b
    simp [scanBest, maxAliasLen, List.filter_nil]
  | cons e r ih =>
    intro b
    by_cases hfe : fuzzyHit key e = true
    · rw [List.filter_cons_of_pos hfe, maxAliasLen_cons]
      have hL : scanBest key (e :: r) (some b) =
          if e.1.length > b.2.2 then scanBest key r (some (e.2.1, e.2.2, e.1.length))
          else scanBest key r (some b) := by
        simp [scanBest, hfe]
      rw [hL]
      rcases Nat.lt_or_ge b.2.2 e.1.length with hA | hB
      · -- the head strictly improves the running best
        rw [if_pos hA, ih]
        dsimp only
        rcases Nat.lt_or_ge e.1.length (maxAliasLen (r.filter (fuzzyHit key))) with h1 | h2
        · rw [if_pos h1, Nat.max_eq_right (Nat.le_of_lt h1),
            if_pos (Nat.lt_trans hA h1),
            List.find?_cons_of_neg _ (by simp [Nat.ne_of_lt h1])]
        · rw [if_neg (by omega), Nat.max_eq_left h2, if_pos hA,
            List.find?_cons_of_pos _ (by simp)]
          rfl
      · -- the head does not improve the running best
        rw [if_neg (by omega), ih]
        rcases Nat.lt_or_ge b.2.2 (maxAliasLen (r.filter (fuzzyHit key))) with h1 | h2
        · have hlt : e.1.length < maxAliasLen (r.filter (fuzzyHit key)) := by omega
          rw [if_pos h1, Nat.max_eq_right (Nat.le_of_lt hlt), if_pos h1,
            List.find?_cons_of_neg _ (by simp [Nat.ne_of_lt hlt])]
        · rw [if_neg (by omega), if_neg (by
            rcases Nat.le_total e.1.length (maxAliasLen (r.filter (fuzzyHit key))) with h | h
            · rw [Nat.max_eq_right h]; omega
            · rw [Nat.max_eq_left h]; omega)]
    · rw [List.filter_cons_of_neg (by simpa using hfe)]
      have hL : scanBest key (e :: r) (some b) = scanBest key r (some b) := by
        simp [scanBest, hfe]
      rw [hL, ih]

theorem scanBest_none_eq (key : String) :
    ∀ l : List (String × String × String),
      scanBest key l none =
        ((l.filter (fuzzyHit key)).find?
            (fun e => e.1.length == maxAliasLen (l.filter (fuzzyHit key)))).map
          (fun e => (e.2.1, e.2.2, e.1.length)) := by
  intro l
  induction l with
  | nil => simp [scanBest, List.filter_nil]
  | cons e r ih =>
    by_cases hfe : fuzzyHit key e = true
    · rw [List.filter_cons_of_pos hfe, maxAliasLen_cons]
      have hL : scanBest key (e :: r) none =
          scanBest key r (some (e.2.1, e.2.2, e.1.length)) := by
        simp [scanBest, hfe]
      rw [hL, scanBest_some_eq]
      dsimp only
      rcases Nat.lt_or_ge e.1.length (maxAliasLen (r.filter (fuzzyHit key))) with h1 | h2
      · rw [if_pos h1, Nat.max_eq_right (Nat.le_of_lt h1),
          List.find?_cons_of_neg _ (by simp [Nat.ne_of_lt h1])]
      · rw [if_neg (by omega), Nat.max_eq_left h2,
          List.find?_cons_of_pos _ (by simp)]
        rfl
    · rw [List.filter_cons_of_neg (by simpa using hfe)]
      have hL : scanBest key (e :: r) none = scanBest key r none := by
        simp [scanBest, hfe]
      rw [hL, ih]

/-- Claim C3: `find_group_for_model` implements exactly the resolution
algorithm described by the spec (`specResolve`): exact normalized match
returned immediately, otherwise the bidirectional-containment scan won by
the longest normalized alias with first-encountered tie-breaking, and
`(none, none)` when nothing passes containment. -/
theorem C3_resolve_algorithm (model_text : String) :
    find_group_for_model model_text = specResolve model_text := by
  simp only [find_group_for_model, specResolve]
  cases hf : NORMALIZED_MODEL_TO_GROUP.find?
      (fun e => e.1 = normalize_model_key model_text) with
  | some e => rfl
  | none =>
    rw [scanBest_none_eq]
    cases hg : (NORMALIZED_MODEL_TO_GROUP.filter
        (fuzzyHit (normalize_model_key model_text))).find?
        (fun e => e.1.length ==
          maxAliasLen (NORMALIZED_MODEL_TO_GROUP.filter
            (fuzzyHit (normalize_model_key model_text)))) with
    | some e => rfl
    | none => rfl

/-! ## Claim C1: composition of `build_new_name` -/

theorem fg_fst_some (m : String) (g : String)
    (h : (find_group_for_model m).1 = some g) :
    ∃ k a, (k, g, a) ∈ NORMALIZED_MODEL_TO_GROUP := by
  simp only [find_group_for_model] at h
  cases hf : NORMALIZED_MODEL_TO_GROUP.find?
      (fun e => e.1 = normalize_model_key m) with
  | some e =>
    rw [hf] at h
    simp only [Option.some.injEq] at h
    exact ⟨e.1, e.2.2, by rw [← h]; exact List.mem_of_find?_eq_some hf⟩
  | none =>
    rw [hf, scanBest_none_eq] at h
    cases hg : (NORMALIZED_MODEL_TO_GROUP.filter
        (fuzzyHit (normalize_model_key m))).find?
        (fun e => e.1.length ==
          maxAliasLen (NORMALIZED_MODEL_TO_GROUP.filter
            (fuzzyHit (normalize_model_key m)))) with
    | some e =>
      rw [hg] at h
      simp only [Option.map_some', Option.some.injEq] at h
      have hmem : e ∈ NORMALIZED_MODEL_TO_GROUP :=
        List.mem_of_mem_filter (List.mem_of_find?_eq_some hg)
      exact ⟨e.1, e.2.2, by rw [← h]; exact hmem⟩
    | none => rw [hg] at h; simp at h

theorem canonical_of_mem (e : String × String × String)
    (he : e ∈ NORMALIZED_MODEL_TO_GROUP) :
    ∃ c, GROUP_TO_CANONICAL_MODEL e.2.1 = some c ∧ sanitize_component c ≠ "" := by
  have H : ∀ x ∈ NORMALIZED_MODEL_TO_GROUP,
      (match GROUP_TO_CANONICAL_MODEL x.2.1 with
       | some c => decide (sanitize_component c ≠ "")
       | none => false) = true := by decide
  have hx := H e he
  cases hc : GROUP_TO_CANONICAL_MODEL e.2.1 with
  | none => rw [hc] at hx; cases hx
  | some c =>
    rw [hc] at hx
    exact ⟨c, rfl, of_decide_eq_true hx⟩

/-- Claim C1: whenever extraction, sanitization and numeral conversion all
succeed, `build_new_name` composes the spec's formula
(groupId + "_" if a group was found else "") + finalModel + "_第" +
canonical numeral + "个点", substituting the group's re-sanitized canonical
model when a group matches; in particular
`build_new_name "IMG_乱码---小米15第三个点(1)" = "1-1_小米15_第三个点"` and
`build_new_name "未知机型第2个点" = "未知机型_第二个点"`. -/
theorem C1_build_name_composition :
    (∀ (stem : String) (mr nr : List Char) (n : Nat),
        patternExtract stem.data = some (mr, nr) →
        sanitize_component (pyStrip ⟨mr⟩) ≠ "" →
        cn2int (pyStrip ⟨nr⟩) = some n →
        build_new_name stem =
          some (composeFinal (sanitize_component (pyStrip ⟨mr⟩)) n)) ∧
      build_new_name "IMG_乱码---小米15第三个点(1)" = some "1-1_小米15_第三个点" ∧
      build_new_name "未知机型第2个点" = some "未知机型_第二个点" := by
  refine ⟨?_, by decide, by decide⟩
  intro stem mr nr n hp hm hn
  unfold build_new_name
  rw [hp]
  dsimp only
  rw [if_neg hm, hn]
  dsimp only
  cases hg : (find_group_for_model (sanitize_component (pyStrip ⟨mr⟩))).1 with
  | none =>
    unfold composeFinal
    rw [hg]
  | some g =>
    obtain ⟨k, a, hka⟩ := fg_fst_some _ _ hg
    obtain ⟨c, hc, hcne⟩ := canonical_of_mem (k, g, a) hka
    have hc' : GROUP_TO_CANONICAL_MODEL g = some c := hc
    unfold composeFinal
    rw [hg]
    dsimp only
    rw [hc']
    simp only [Option.map_some', Option.getD_some]
    rw [if_neg hcne]

/-- Witness for C1 on the first end-to-end example of the spec. -/
theorem C1_build_name_composition_witness :
    build_new_name "IMG_乱码---小米15第三个点(1)" =
      some (composeFinal (sanitize_component (pyStrip ⟨"小米15".data⟩)) 3) :=
  C1_build_name_composition.1 "IMG_乱码---小米15第三个点(1)" "小米15".data "三".data 3
    (by decide) (by decide) (by decide)

theorem digitsToNat_append (xs : List Char) (c : Char) :
    digitsToNat (xs ++ [c]) = 10 * digitsToNat xs + (c.toNat - 48) := by
  unfold digitsToNat
  rw [List.foldl_append]
  rfl

theorem digitsToNat_natDigits : ∀ (fuel n : Nat), n ≤ fuel →
    digitsToNat (natDigits fuel n) = n := by
  intro fuel
  induction fuel with
  | zero =>
    intro n hn
    have : n = 0 := by omega
    subst this
    rfl
  | succ f ih =>
    intro n hn
    match n with
    | 0 => rfl
    | m + 1 =>
      rw [show natDigits (f + 1) (m + 1) =
          natDigits f ((m + 1) / 10) ++ [Char.ofNat (48 + (m + 1) % 10)] from rfl,
        digitsToNat_append]
      have hdiv : (m + 1) / 10 ≤ f := by
        have : (m + 1) / 10 < m + 1 := Nat.div_lt_self (Nat.succ_pos m) (by omega)
        omega
      rw [ih _ hdiv]
      have hchar : ∀ r : Nat, r < 10 → (Char.ofNat (48 + r)).toNat - 48 = r := by
        intro r hr
        interval_cases r <;> decide
      rw [hchar _ (Nat.mod_lt _ (by omega))]
      omega

theorem pyNatStr_parse (n : Nat) : digitsToNat (pyNatStr n).data = n := by
  unfold pyNatStr
  by_cases h : n = 0
  · subst h; decide
  · rw [if_neg h]
    show digitsToNat (natDigits n n) = n
    exact digitsToNat_natDigits n n (Nat.le_refl n)

theorem pyNatStr_data_inj (a b : Nat)
    (h : (pyNatStr a).data = (pyNatStr b).data) : a = b := by
  have h2 : digitsToNat (pyNatStr a).data = digitsToNat (pyNatStr b).data := by rw [h]
  rwa [pyNatStr_parse, pyNatStr_parse] at h2

theorem candName_inj (stem sfx : String) (i j : Nat)
    (h : candName stem sfx i = candName stem sfx j) : i = j := by
  apply pyNatStr_data_inj
  have hd := congrArg String.data h
  simp only [candName, String.data_append, List.append_assoc] at hd
  exact List.append_cancel_right
    (List.append_cancel_left (List.append_cancel_left hd))

theorem ensureUniqueAux_not_mem (fs : List String) (stem sfx : String) :
    ∀ (fuel i : Nat), (∃ k, k < fuel ∧ candName stem sfx (i + k) ∉ fs) →
      ensureUniqueAux fs stem sfx fuel i ∉ fs := by
  intro fuel
  induction fuel with
  | zero =>
    intro i h
    rcases h with ⟨k, hk, -⟩
    omega
  | succ f ih =>
    intro i h
    unfold ensureUniqueAux
    by_cases hc : candName stem sfx i ∈ fs
    · rw [if_pos hc]
      apply ih
      rcases h with ⟨k, hk, hkn⟩
      rcases k with - | k'
      · exact absurd hc (by simpa using hkn)
      · exact ⟨k', by omega, by rw [show i + 1 + k' = i + (k' + 1) by omega]; exact hkn⟩
    · rw [if_neg hc]; exact hc

theorem exists_fresh_cand (fs : List String) (stem sfx : String) (i : Nat) :
    ∃ k, k < fs.length + 1 ∧ candName stem sfx (i + k) ∉ fs := by
  by_contra hcon
  push_neg at hcon
  have hinj : Set.InjOn (fun k => candName stem sfx (i + k))
      ↑(Finset.range (fs.length + 1)) := by
    intro a _ b _ hab
    have := candName_inj stem sfx (i + a) (i + b) hab
    omega
  have hcard : ((Finset.range (fs.length + 1)).image
      (fun k => candName stem sfx (i + k))).card = fs.length + 1 := by
    rw [Finset.card_image_of_injOn hinj, Finset.card_range]
  have hsub : (Finset.range (fs.length + 1)).image
      (fun k => candName stem sfx (i + k)) ⊆ fs.toFinset := by
    intro x hx
    rcases Finset.mem_image.mp hx with ⟨k, hk, rfl⟩
    exact List.mem_toFinset.mpr (hcon k (Finset.mem_range.mp hk))
  have h1 := Finset.card_le_card hsub
  have h2 := List.toFinset_card_le fs
  omega

theorem ensure_unique_not_mem (fs : List String) (target : String) :
    ensure_unique fs target ∉ fs := by
  unfold ensure_unique
  by_cases h : target ∈ fs
  · rw [if_pos h]
    exact ensureUniqueAux_not_mem fs _ _ (fs.length + 1) 2 (exists_fresh_cand fs _ _ 2)
  · rw [if_neg h]; exact h

/-- Counterexample to C4 as stated: on a directory with the two files
"小米15第三个点.jpg" and "小米15第3个点.jpg", planning returns two entries
with the SAME destination "1-1_小米15_第三个点.jpg" — `ensure_unique`
consults only the existing filesystem entries and never the destinations
already planned, so plan-internal collisions are not prevented. -/
theorem C4_counterexample_plan_collision :
    plan_changes demoFs =
      [("小米15第三个点.jpg", "1-1_小米15_第三个点.jpg"),
       ("小米15第3个点.jpg", "1-1_小米15_第三个点.jpg")] ∧
      ¬ ((plan_changes demoFs).Pairwise fun e1 e2 => e1.2 ≠ e2.2) :=
  ⟨by decide, by decide⟩

/-- Claim C4 (amended): every rename-plan entry's destination is
guaranteed, before it is returned by planning, not to collide with any
existing filesystem entry, a collision being resolved by the incrementing
`(n)` suffix; destinations of other entries in the same plan are NOT
checked and may coincide. -/
theorem C4_plan_destinations_avoid_existing (fs : List String)
    (e : String × String) (he : e ∈ plan_changes fs) : e.2 ∉ fs := by
  unfold plan_changes at he
  rcases List.mem_filterMap.mp he with ⟨p, -, hfe⟩
  cases hb : build_new_name (splitName p).1 with
  | none => rw [hb] at hfe; simp at hfe
  | some nb =>
    rw [hb] at hfe
    dsimp only at hfe
    by_cases h0 : nb = ""
    · rw [if_pos h0] at hfe; simp at hfe
    rw [if_neg h0] at hfe
    by_cases h1 : nb = (splitName p).1
    · rw [if_pos h1] at hfe; simp at hfe
    rw [if_neg h1] at hfe
    by_cases h2 : caseFold (ensure_unique fs (nb ++ (splitName p).2)) = caseFold p
    · rw [if_pos h2] at hfe; simp at hfe
    rw [if_neg h2] at hfe
    by_cases h3 : ensure_unique fs (nb ++ (splitName p).2) ≠ p
    · rw [if_pos h3] at hfe
      cases hfe
      exact ensure_unique_not_mem fs _
    · rw [if_neg h3] at hfe; simp at hfe

/-- Witness for the amended C4 on the demo directory. -/
theorem C4_plan_destinations_avoid_existing_witness :
    "1-1_小米15_第三个点.jpg" ∉ demoFs :=
  C4_plan_destinations_avoid_existing demoFs
    ("小米15第三个点.jpg", "1-1_小米15_第三个点.jpg") (by decide)

end NormName
